import Mathlib

/-!
# Verification of `rgb2yuv420` (src/lib.rs)

Shallow embedding of the RGB → YUV420 conversion kernel from `src/lib.rs`.

Modelling conventions:
* `u8` samples are naturals (every buffer entry is a byte value; hypotheses
  bound them by 255 where the arithmetic depends on it).
* The 16-bit fixed-point pixel arithmetic — the place where the spec
  discusses overflow — is modelled exactly, with explicit wrapping; so are,
  in `convert_rgb_to_yuv420_u32`, the two `u32` products
  `width * height` and `width * height * 3` of the allocation code
  (`wrapU32`, release semantics; a debug build panics at the same
  geometries, see `convert_rgb_to_yuv420_u32`).  The idealized
  `convert_rgb_to_yuv420` leaves those two products unbounded; the
  `u32_model_agrees` lemma proves the two models equal whenever
  `width * height * 3 < 2^32`, and the only unconditional success theorem
  (C10, amended) is stated about the exact-`u32` model.
* Fallible operations (slice indexing `img[i]`, `Vec` index assignment)
  return `Option`; a Rust panic is `none`.
* `f32::ceil(chroma_size as f32 / 2.0) as usize` is modelled as the exact
  mathematical ceiling `(chroma_size + 1) / 2`.  The float round trip is
  exact exactly when `chroma_size ≤ 2^24`; the unconditional success
  theorem keeps `chroma_size ≤ 2^24` by hypothesis, and every other claim
  is either conditional on the run completing or evaluated on small
  concrete inputs, where the two readings agree.
-/

/-- Wrapping of an integer into the `i16` range, as Rust release-mode `i16`
arithmetic does.  Every chroma expression of the kernel stays inside the
`i16` range for byte inputs (see the no-overflow results below), so one wrap
around the full linear combination agrees with per-operation wrapping. -/
def wrapI16 (x : Int) : Int := (x + 32768) % 65536 - 32768

/-- Arithmetic right shift by 8 on a (represented) `i16` value: floor
division by 256.  `/` on `Int` is euclidean division (`Int.ediv`), which
coincides with floor division because the divisor is positive. -/
def asr8 (x : Int) : Int := x / 256

/-- `fn clamp(val: i32) -> u8` from src/lib.rs: saturate to `[0, 255]`. -/
def clamp (val : Int) : Nat :=
  if val < 0 then 0
  else if 255 < val then 255
  else val.toNat

/-- `y = (77 * r + 150 * g + 29 * b + 128) >> 8` on `u16` (logical shift).
The sum is wrapped into the `u16` range; for byte inputs it never wraps. -/
def yValue (r g b : Nat) : Nat := ((77 * r + 150 * g + 29 * b + 128) % 65536) >>> 8

/-- `u = ((-43 * r - 84 * g + 127 * b + 128) >> 8) + 128` on `i16`
(arithmetic shift). -/
def uValue (r g b : Nat) : Int :=
  wrapI16 (asr8 (wrapI16 (-43 * (r : Int) - 84 * g + 127 * b + 128)) + 128)

/-- `v = ((127 * r - 106 * g - 21 * b + 128) >> 8) + 128` on `i16`
(arithmetic shift). -/
def vValue (r g b : Nat) : Int :=
  wrapI16 (asr8 (wrapI16 (127 * (r : Int) - 106 * g - 21 * b + 128)) + 128)

/-- `f32::ceil(chroma_size as f32 / 2.0) as usize`: the ceiling of half.
The `f32` round trip computes exactly this whenever `n ≤ 2^24` (every such
integer and its half are exact in `f32`); for larger `n` the `f32` value
can differ, which only the amended C10 quantifies over, and its hypothesis
`width * height ≤ 2^26` keeps `chroma_size ≤ 2^24`. -/
def ceilHalf (n : Nat) : Nat := (n + 1) / 2

/-- `Vec` index assignment `yuv[i] = x`: panics (`none`) when out of
bounds. -/
def setByte (l : List Nat) (i : Nat) (x : Nat) : Option (List Nat) :=
  if i < l.length then some (l.set i x) else none

/-- The mutable locals of `convert_rgb_to_yuv420` that flow through the
loops: the output buffer and the three cursors. -/
structure ConvState where
  yuv : List Nat
  yIndex : Nat
  uvIndex : Nat
  index : Nat
  deriving Repr, DecidableEq

/-- Type of the `store_uv` strategy closure: given the buffer, the chroma
cursor, `chroma_size`, and the clamped `u`, `v` bytes, it returns the
updated buffer and cursor (or `none` on an out-of-bounds write). -/
abbrev StoreUV := List Nat → Nat → Nat → Nat → Nat → Option (List Nat × Nat)

/-- The closure of `convert_rgb_to_yuv420p`:
`yuv[*uv_index] = u; yuv[*uv_index + ceil(chroma_size/2)] = v; *uv_index += 1;` -/
def storeUVPlanar : StoreUV := fun yuv uvIndex chromaSize u v => do
  let yuv1 ← setByte yuv uvIndex u
  let yuv2 ← setByte yuv1 (uvIndex + ceilHalf chromaSize) v
  some (yuv2, uvIndex + 1)

/-- The closure of `convert_rgb_to_yuv420sp_nv12`:
`yuv[*uv_index] = u; *uv_index += 1; yuv[*uv_index] = v; *uv_index += 1;` -/
def storeUVNv12 : StoreUV := fun yuv uvIndex _chromaSize u v => do
  let yuv1 ← setByte yuv uvIndex u
  let yuv2 ← setByte yuv1 (uvIndex + 1) v
  some (yuv2, uvIndex + 2)

/-- The chroma-subsampling condition `j % 2 == 0 && index % 2 == 0`,
evaluated after `index += 1` (so `index` is the 1-based running pixel
count). -/
def chromaGuard (j index : Nat) : Bool := j % 2 == 0 && index % 2 == 0

/-- The body of the inner loop of `convert_rgb_to_yuv420`: read one pixel,
write its luma byte, and conditionally store its chroma pair. -/
def processPixel (img : List Nat) (bytesPerPixel : Nat) (store : StoreUV)
    (chromaSize j : Nat) (st : ConvState) : Option ConvState := do
  let r ← img.get? (st.index * bytesPerPixel)
  let g ← img.get? (st.index * bytesPerPixel + 1)
  let b ← img.get? (st.index * bytesPerPixel + 2)
  let index := st.index + 1
  let y := yValue r g b
  let u := uValue r g b
  let v := vValue r g b
  let yuv1 ← setByte st.yuv st.yIndex (clamp (y : Int))
  let yIndex := st.yIndex + 1
  if chromaGuard j index then do
    let (yuv2, uvIndex2) ← store yuv1 st.uvIndex chromaSize (clamp u) (clamp v)
    some ⟨yuv2, yIndex, uvIndex2, index⟩
  else
    some ⟨yuv1, yIndex, st.uvIndex, index⟩

/-- `for _ in 0..width { ... }`: iterate `processPixel` a given number of
times (the Rust loop variable is unused). -/
def innerLoop (img : List Nat) (bytesPerPixel : Nat) (store : StoreUV)
    (chromaSize j : Nat) : Nat → ConvState → Option ConvState
  | 0, st => some st
  | n + 1, st => processPixel img bytesPerPixel store chromaSize j st >>=
      innerLoop img bytesPerPixel store chromaSize j n

/-- `for j in 0..height { ... }`: run the inner loop for each row, with `j`
the current row index and the second argument the number of rows left. -/
def outerLoop (img : List Nat) (bytesPerPixel : Nat) (store : StoreUV)
    (chromaSize w : Nat) : Nat → Nat → ConvState → Option ConvState
  | _, 0, st => some st
  | j, rem + 1, st => innerLoop img bytesPerPixel store chromaSize j w st >>=
      outerLoop img bytesPerPixel store chromaSize w (j + 1) rem

/-- `fn convert_rgb_to_yuv420` from src/lib.rs: allocate the zero-filled
output of length `width * height * 3 / 2` and run the two nested loops.
This version idealizes the two `u32` products of the allocation code as
unbounded naturals; `convert_rgb_to_yuv420_u32` below wraps them exactly,
and `u32_model_agrees` proves the two versions equal whenever
`width * height * 3 < 2^32`. -/
def convert_rgb_to_yuv420 (img : List Nat) (width height : Nat)
    (bytesPerPixel : Nat) (store : StoreUV) : Option (List Nat) := do
  let frameSize := width * height
  let chromaSize := frameSize / 4
  let st ← outerLoop img bytesPerPixel store chromaSize width 0 height
      ⟨List.replicate (width * height * 3 / 2) 0, 0, frameSize, 0⟩
  some st.yuv

/-- `pub fn convert_rgb_to_yuv420p`. -/
def convert_rgb_to_yuv420p (img : List Nat) (width height : Nat)
    (bytesPerPixel : Nat) : Option (List Nat) :=
  convert_rgb_to_yuv420 img width height bytesPerPixel storeUVPlanar

/-- `pub fn convert_rgb_to_yuv420sp_nv12`. -/
def convert_rgb_to_yuv420sp_nv12 (img : List Nat) (width height : Nat)
    (bytesPerPixel : Nat) : Option (List Nat) :=
  convert_rgb_to_yuv420 img width height bytesPerPixel storeUVNv12

/-- Wrapping of a natural into the `u32` range, as Rust release-mode `u32`
multiplication does. -/
def wrapU32 (n : Nat) : Nat := n % 4294967296

/-- `fn convert_rgb_to_yuv420` with the `u32` products of the source
modelled exactly: `frame_size = (width * height) as usize` wraps the `u32`
product, and the allocation size `(width * height * 3 / 2) as usize` wraps
each `u32` multiplication before the (non-wrapping) division.  In a debug
build the overflowing multiplication panics instead, so on an overflowing
geometry the call fails either way: here the too-small wrapped allocation
makes a later buffer write fail (`none`).  `u32_model_agrees` shows this
model and the idealized `convert_rgb_to_yuv420` coincide whenever
`width * height * 3 < 2^32`. -/
def convert_rgb_to_yuv420_u32 (img : List Nat) (width height : Nat)
    (bytesPerPixel : Nat) (store : StoreUV) : Option (List Nat) := do
  let frameSize := wrapU32 (width * height)
  let chromaSize := frameSize / 4
  let st ← outerLoop img bytesPerPixel store chromaSize width 0 height
      ⟨List.replicate (wrapU32 (wrapU32 (width * height) * 3) / 2) 0, 0, frameSize, 0⟩
  some st.yuv

/-- `pub fn convert_rgb_to_yuv420p` over the exact-`u32` kernel model. -/
def convert_rgb_to_yuv420p_u32 (img : List Nat) (width height : Nat)
    (bytesPerPixel : Nat) : Option (List Nat) :=
  convert_rgb_to_yuv420_u32 img width height bytesPerPixel storeUVPlanar

/-- `pub fn convert_rgb_to_yuv420sp_nv12` over the exact-`u32` kernel
model. -/
def convert_rgb_to_yuv420sp_nv12_u32 (img : List Nat) (width height : Nat)
    (bytesPerPixel : Nat) : Option (List Nat) :=
  convert_rgb_to_yuv420_u32 img width height bytesPerPixel storeUVNv12

example : convert_rgb_to_yuv420p (List.replicate 12 0) 2 2 3 =
    some [0, 0, 0, 0, 128, 128] := by decide

example : convert_rgb_to_yuv420sp_nv12 (List.replicate 12 0) 2 2 3 =
    some [0, 0, 0, 0, 128, 128] := by decide

/-! ## Spec-side value functions (the formulas as worded in the spec) -/

/-- The saturating clamp to `[0, 255]` described by the spec: out-of-range
values saturate to 0 or 255, never wrap. -/
def satClamp (x : Int) : Nat := (max 0 (min 255 x)).toNat

/-- The spec's luma formula `(77*R + 150*G + 29*B + 128) >> 8` over the
unbounded integers (arithmetic shift). -/
def ySpec (r g b : Nat) : Int := asr8 (77 * (r : Int) + 150 * g + 29 * b + 128)

/-- The spec's chroma formula `((-43*R - 84*G + 127*B + 128) >> 8) + 128`
over the unbounded integers. -/
def uSpec (r g b : Nat) : Int := asr8 (-43 * (r : Int) - 84 * g + 127 * b + 128) + 128

/-- The spec's chroma formula `((127*R - 106*G - 21*B + 128) >> 8) + 128`
over the unbounded integers. -/
def vSpec (r g b : Nat) : Int := asr8 (127 * (r : Int) - 106 * g - 21 * b + 128) + 128

/-- The `i16` wrap is the identity on the `i16` range. -/
theorem wrapI16_eq_self {x : Int} (h1 : -32768 ≤ x) (h2 : x ≤ 32767) : wrapI16 x = x := by
  unfold wrapI16; omega

/-! ## C9: no 16-bit overflow -/

/-- C9: for all 8-bit samples `R`, `G`, `B`, the unsigned luma expression
`77*R + 150*G + 29*B + 128` fits in `u16`, the signed chroma expressions
`-43*R - 84*G + 127*B + 128` and `127*R - 106*G - 21*B + 128` fit in `i16`
(so the `i16` wrap of the model is the identity on them), and the
arithmetic-overflow panic branch is unreachable for 8-bit inputs. -/
theorem fixed_point_no_overflow (r g b : Nat)
    (hr : r ≤ 255) (hg : g ≤ 255) (hb : b ≤ 255) :
    77 * r + 150 * g + 29 * b + 128 < 65536 ∧
    (-32768 ≤ -43 * (r : Int) - 84 * g + 127 * b + 128 ∧
      -43 * (r : Int) - 84 * g + 127 * b + 128 ≤ 32767) ∧
    (-32768 ≤ 127 * (r : Int) - 106 * g - 21 * b + 128 ∧
      127 * (r : Int) - 106 * g - 21 * b + 128 ≤ 32767) ∧
    wrapI16 (-43 * (r : Int) - 84 * g + 127 * b + 128) =
      -43 * (r : Int) - 84 * g + 127 * b + 128 ∧
    wrapI16 (127 * (r : Int) - 106 * g - 21 * b + 128) =
      127 * (r : Int) - 106 * g - 21 * b + 128 := by
  unfold wrapI16
  omega

/-- Witness for C9 at the extreme inputs `R = G = B = 255`. -/
theorem fixed_point_no_overflow_witness :
    77 * 255 + 150 * 255 + 29 * 255 + 128 < 65536 ∧
    (-32768 ≤ -43 * (255 : Int) - 84 * 255 + 127 * 255 + 128 ∧
      -43 * (255 : Int) - 84 * 255 + 127 * 255 + 128 ≤ 32767) ∧
    (-32768 ≤ 127 * (255 : Int) - 106 * 255 - 21 * 255 + 128 ∧
      127 * (255 : Int) - 106 * 255 - 21 * 255 + 128 ≤ 32767) ∧
    wrapI16 (-43 * (255 : Int) - 84 * 255 + 127 * 255 + 128) =
      -43 * (255 : Int) - 84 * 255 + 127 * 255 + 128 ∧
    wrapI16 (127 * (255 : Int) - 106 * 255 - 21 * 255 + 128) =
      127 * (255 : Int) - 106 * 255 - 21 * 255 + 128 :=
  fixed_point_no_overflow 255 255 255 (by decide) (by decide) (by decide)

/-! ## C1: the per-pixel formulas and saturation -/

/-- C1: for all 8-bit samples, the kernel's stored luma byte
`clamp(yValue)` and chroma bytes `clamp(uValue)`, `clamp(vValue)` (the
values both variants compute and hand to their store strategies, see
`processPixel`) are exactly the saturating clamp to `[0,255]` of the spec's
formulas `(77R+150G+29B+128)>>8`, `((-43R-84G+127B+128)>>8)+128` and
`((127R-106G-21B+128)>>8)+128` over the integers. -/
theorem stored_bytes_follow_spec_formulas (r g b : Nat)
    (hr : r ≤ 255) (hg : g ≤ 255) (hb : b ≤ 255) :
    clamp ((yValue r g b : Nat) : Int) = satClamp (ySpec r g b) ∧
    clamp (uValue r g b) = satClamp (uSpec r g b) ∧
    clamp (vValue r g b) = satClamp (vSpec r g b) := by
  refine ⟨?_, ?_, ?_⟩
  · have hmod : (77 * r + 150 * g + 29 * b + 128) % 65536 =
        77 * r + 150 * g + 29 * b + 128 := by omega
    have hcast : 77 * (r : Int) + 150 * g + 29 * b + 128 =
        ((77 * r + 150 * g + 29 * b + 128 : Nat) : Int) := by push_cast; ring
    simp only [yValue, ySpec, asr8, hmod, hcast, Nat.shiftRight_eq_div_pow]
    norm_num only
    simp only [clamp, satClamp]
    split_ifs <;> omega
  · have h1 : wrapI16 (-43 * (r : Int) - 84 * g + 127 * b + 128) =
        -43 * (r : Int) - 84 * g + 127 * b + 128 :=
      wrapI16_eq_self (by omega) (by omega)
    have h2 : wrapI16 (asr8 (-43 * (r : Int) - 84 * g + 127 * b + 128) + 128) =
        asr8 (-43 * (r : Int) - 84 * g + 127 * b + 128) + 128 := by
      refine wrapI16_eq_self ?_ ?_ <;> unfold asr8 <;> omega
    rw [uValue, h1, h2, uSpec]
    simp only [clamp, satClamp, asr8]
    split_ifs <;> omega
  · have h1 : wrapI16 (127 * (r : Int) - 106 * g - 21 * b + 128) =
        127 * (r : Int) - 106 * g - 21 * b + 128 :=
      wrapI16_eq_self (by omega) (by omega)
    have h2 : wrapI16 (asr8 (127 * (r : Int) - 106 * g - 21 * b + 128) + 128) =
        asr8 (127 * (r : Int) - 106 * g - 21 * b + 128) + 128 := by
      refine wrapI16_eq_self ?_ ?_ <;> unfold asr8 <;> omega
    rw [vValue, h1, h2, vSpec]
    simp only [clamp, satClamp, asr8]
    split_ifs <;> omega

/-- Witness for C1 at `R = 255`, `G = B = 0`. -/
theorem stored_bytes_follow_spec_formulas_witness :
    clamp ((yValue 255 0 0 : Nat) : Int) = satClamp (ySpec 255 0 0) ∧
    clamp (uValue 255 0 0) = satClamp (uSpec 255 0 0) ∧
    clamp (vValue 255 0 0) = satClamp (vSpec 255 0 0) :=
  stored_bytes_follow_spec_formulas 255 0 0 (by decide) (by decide) (by decide)

/-! ## Concrete 4×4 inputs for the subsampling and layout claims -/

/-- A 4×4 RGB image (`bytes_per_pixel = 3`) in which pixel `p` (row-major)
has the colour `(16*p, 0, 0)`: all sixteen pixels are pairwise distinct and
have pairwise distinct chroma pairs. -/
def img16 : List Nat := (List.range 16).flatMap (fun p => [16 * p, 0, 0])

/-- The planar output the code produces on `img16` (checked below). -/
def out16p : List Nat :=
  [0, 5, 10, 14, 19, 24, 29, 34, 39, 43, 48, 53, 58, 63, 67, 72,
   125, 120, 104, 98, 199, 215, 0, 0]

/-- The NV12 output the code produces on `img16` (checked below). -/
def out16n : List Nat :=
  [0, 5, 10, 14, 19, 24, 29, 34, 39, 43, 48, 53, 58, 63, 67, 72,
   125, 136, 120, 152, 104, 199, 98, 215]

/-- A 4×4 RGB image whose pixel (0,0) is pure red `(255,0,0)` and whose
fifteen other pixels are black. -/
def imgC2 : List Nat := [255, 0, 0] ++ List.replicate 45 0

/-! ## C2: which pixels contribute the chroma samples -/

/-- C2 (counterexample): on the 4×4 image `imgC2`, whose only non-black
pixel is (0,0), the chroma byte of pixel (0,0) would be
`clamp (uValue 255 0 0) = 85`; but every chroma byte of both outputs is 128
(black) or 0 (never written), so pixel (0,0) — an even-row, even-column
pixel — contributes no chroma sample, refuting the claimed selection set
`{(0,0),(0,2),(2,0),(2,2)}`. -/
theorem chroma_not_from_even_columns :
    convert_rgb_to_yuv420sp_nv12 imgC2 4 4 3 =
      some (77 :: (List.replicate 15 0 ++ List.replicate 8 128)) ∧
    clamp (uValue 255 0 0) = 85 ∧
    ¬ (85 ∈ 77 :: (List.replicate 15 0 ++ List.replicate 8 128)) ∧
    convert_rgb_to_yuv420p imgC2 4 4 3 =
      some (77 :: (List.replicate 15 0 ++ (List.replicate 6 128 ++ [0, 0]))) ∧
    ¬ (85 ∈ 77 :: (List.replicate 15 0 ++ (List.replicate 6 128 ++ [0, 0]))) := by
  decide

/-- C2 (amended): for even width the chroma guard
`j % 2 == 0 && index % 2 == 0` (with `index` the 1-based running pixel
count, so `index = j*w + i + 1` at row `j`, column `i`) selects exactly the
pixels with even row index and odd column index — the top-right corner of
each 2×2 block; on a 4×4 all-distinct-pixel input the chroma samples are
exactly those of pixels (0,1), (0,3), (2,1), (2,3) (row-major pixels
1, 3, 9, 11), in that order. -/
theorem chroma_selected_even_row_odd_col :
    (∀ w j i, 2 ∣ w → i < w →
      (chromaGuard j (j * w + i + 1) = true ↔ j % 2 = 0 ∧ i % 2 = 1)) ∧
    convert_rgb_to_yuv420sp_nv12 img16 4 4 3 =
      some ((List.range 16).map (fun p => clamp ((yValue (16 * p) 0 0 : Nat) : Int)) ++
        [clamp (uValue (16 * 1) 0 0), clamp (vValue (16 * 1) 0 0),
         clamp (uValue (16 * 3) 0 0), clamp (vValue (16 * 3) 0 0),
         clamp (uValue (16 * 9) 0 0), clamp (vValue (16 * 9) 0 0),
         clamp (uValue (16 * 11) 0 0), clamp (vValue (16 * 11) 0 0)]) := by
  constructor
  · rintro w j i ⟨a, rfl⟩ hi
    have hm : ∃ m, j * (2 * a) = 2 * m := ⟨j * a, by ring⟩
    obtain ⟨m, hm⟩ := hm
    simp only [chromaGuard, Bool.and_eq_true, beq_iff_eq, hm]
    omega
  · decide

/-- Witness for the amended C2 at `w = 4`, `j = 0`, `i = 1`. -/
theorem chroma_selected_even_row_odd_col_witness :
    chromaGuard 0 (0 * 4 + 1 + 1) = true ↔ 0 % 2 = 0 ∧ 1 % 2 = 1 :=
  chroma_selected_even_row_odd_col.1 4 0 1 ⟨2, rfl⟩ (by decide)

/-! ## C3: the planar chroma layout -/

/-- C3 (code bug): on the 4×4 image `img16` (`frame_size = 16`,
`chroma_size = 4`) the planar variant puts the U sample of block 0 at index
`16 + 0` as the claim says, but the V sample of block 0 (the byte 136) is
nowhere in the output at all: the V write of block `k` goes to
`16 + k + ceil(4/2) = 16 + k + 2` instead of `16 + 4 + k`, so the U writes
of blocks 2 and 3 overwrite the V samples of blocks 0 and 1, index
`16 + 4 + 0 = 20` holds the V sample of block 2 (199), and the last two
bytes are never written (0). -/
theorem planar_chroma_layout_bug :
    convert_rgb_to_yuv420p img16 4 4 3 = some out16p ∧
    clamp (uValue 16 0 0) = 125 ∧
    clamp (vValue 16 0 0) = 136 ∧
    out16p.get? (4 * 4 + 0) = some 125 ∧
    out16p.get? (4 * 4 + 4 * 4 / 4 + 0) ≠ some 136 ∧
    out16p.get? (4 * 4 + 4 * 4 / 4 + 0) = some (clamp (vValue 144 0 0)) ∧
    ¬ (136 ∈ out16p) ∧
    out16p.get? 22 = some 0 ∧ out16p.get? 23 = some 0 := by
  decide

/-! ## C6: the multiset of (U,V) pairs of the two variants -/

/-- The (U,V) pairs of a planar output under the claimed pairing: U of
block `k` at `frame_size + k`, V of block `k` at
`frame_size + chroma_size + k`. -/
def planarChromaPairs (frameSize chromaSize : Nat) (out : List Nat) :
    List (Option Nat × Option Nat) :=
  (List.range chromaSize).map
    (fun k => (out.get? (frameSize + k), out.get? (frameSize + chromaSize + k)))

/-- The (U,V) pairs of an NV12 output: U of block `k` at
`frame_size + 2*k`, V of block `k` right after it. -/
def nv12ChromaPairs (frameSize chromaSize : Nat) (out : List Nat) :
    List (Option Nat × Option Nat) :=
  (List.range chromaSize).map
    (fun k => (out.get? (frameSize + 2 * k), out.get? (frameSize + 2 * k + 1)))

/-- C6 (code bug): on the 4×4 image `img16` the multiset of (U,V) pairs in
the planar output's chroma region differs from the multiset of (U,V) pairs
in the NV12 output's interleaved chroma region — the planar layout bug
destroys the V samples of blocks 0 and 1, so the variants do not merely
differ in placement. -/
theorem chroma_pair_multiset_mismatch :
    convert_rgb_to_yuv420p img16 4 4 3 = some out16p ∧
    convert_rgb_to_yuv420sp_nv12 img16 4 4 3 = some out16n ∧
    Multiset.ofList (planarChromaPairs 16 4 out16p) ≠
      Multiset.ofList (nv12ChromaPairs 16 4 out16n) := by
  decide

/-! ## Generic facts about the loop machinery -/

/-- Inversion for a successful `Option` bind. -/
theorem optionBind_some {α β : Type} {x : Option α} {f : α → Option β} {b : β}
    (h : x >>= f = some b) : ∃ a, x = some a ∧ f a = some b := by
  rw [Option.bind_eq_bind'] at h
  exact Option.bind_eq_some.mp h

/-- Inversion for a successful `setByte`. -/
theorem setByte_some {l l' : List Nat} {i x : Nat} (h : setByte l i x = some l') :
    i < l.length ∧ l' = l.set i x := by
  unfold setByte at h
  split at h
  · exact ⟨by assumption, (Option.some.inj h).symm⟩
  · cases h

/-- The shape-level guarantees either store strategy gives on success: the
chroma cursor never moves backwards, the buffer keeps its length, entries
below the cursor are untouched, and every changed entry holds `u` or `v`. -/
def StoreInv (store : StoreUV) : Prop :=
  ∀ yuv uv cs u v yuv' uv', store yuv uv cs u v = some (yuv', uv') →
    uv ≤ uv' ∧ yuv'.length = yuv.length ∧
    (∀ p, p < uv → yuv'.get? p = yuv.get? p) ∧
    (∀ p x, yuv'.get? p = some x → x = u ∨ x = v ∨ yuv.get? p = some x)

theorem storeUVPlanar_inv : StoreInv storeUVPlanar := by
  intro yuv uv cs u v yuv' uv' h
  unfold storeUVPlanar at h
  obtain ⟨yuv1, h1, h⟩ := optionBind_some h
  obtain ⟨yuv2, h2, h⟩ := optionBind_some h
  obtain ⟨hlt1, rfl⟩ := setByte_some h1
  obtain ⟨hlt2, rfl⟩ := setByte_some h2
  have h' : (yuv.set uv u).set (uv + ceilHalf cs) v = yuv' ∧ uv + 1 = uv' := by
    simpa using h
  obtain ⟨rfl, rfl⟩ := h'
  refine ⟨by omega, by simp, ?_, ?_⟩
  · intro p hp
    rw [List.get?_set_ne _ _ (by omega), List.get?_set_ne _ _ (by omega)]
  · intro p x hx
    by_cases hp2 : uv + ceilHalf cs = p
    · subst hp2
      rw [List.get?_set_eq_of_lt _ hlt2] at hx
      exact Or.inr (Or.inl (Option.some.inj hx).symm)
    · rw [List.get?_set_ne _ _ hp2] at hx
      by_cases hp1 : uv = p
      · subst hp1
        rw [List.get?_set_eq_of_lt _ hlt1] at hx
        exact Or.inl (Option.some.inj hx).symm
      · rw [List.get?_set_ne _ _ hp1] at hx
        exact Or.inr (Or.inr hx)

theorem storeUVNv12_inv : StoreInv storeUVNv12 := by
  intro yuv uv cs u v yuv' uv' h
  unfold storeUVNv12 at h
  obtain ⟨yuv1, h1, h⟩ := optionBind_some h
  obtain ⟨yuv2, h2, h⟩ := optionBind_some h
  obtain ⟨hlt1, rfl⟩ := setByte_some h1
  obtain ⟨hlt2, rfl⟩ := setByte_some h2
  have h' : (yuv.set uv u).set (uv + 1) v = yuv' ∧ uv + 2 = uv' := by
    simpa using h
  obtain ⟨rfl, rfl⟩ := h'
  refine ⟨by omega, by simp, ?_, ?_⟩
  · intro p hp
    rw [List.get?_set_ne _ _ (by omega), List.get?_set_ne _ _ (by omega)]
  · intro p x hx
    by_cases hp2 : uv + 1 = p
    · subst hp2
      rw [List.get?_set_eq_of_lt _ hlt2] at hx
      exact Or.inr (Or.inl (Option.some.inj hx).symm)
    · rw [List.get?_set_ne _ _ hp2] at hx
      by_cases hp1 : uv = p
      · subst hp1
        rw [List.get?_set_eq_of_lt _ hlt1] at hx
        exact Or.inl (Option.some.inj hx).symm
      · rw [List.get?_set_ne _ _ hp1] at hx
        exact Or.inr (Or.inr hx)

/-- Full inversion of a successful `processPixel` step. -/
theorem processPixel_some_inv {img : List Nat} {bpp : Nat} {store : StoreUV}
    {cs j : Nat} {st st' : ConvState}
    (h : processPixel img bpp store cs j st = some st') :
    ∃ r g b yuv1,
      img.get? (st.index * bpp) = some r ∧
      img.get? (st.index * bpp + 1) = some g ∧
      img.get? (st.index * bpp + 2) = some b ∧
      setByte st.yuv st.yIndex (clamp ((yValue r g b : Nat) : Int)) = some yuv1 ∧
      st'.index = st.index + 1 ∧ st'.yIndex = st.yIndex + 1 ∧
      ((chromaGuard j (st.index + 1) = true ∧
          store yuv1 st.uvIndex cs (clamp (uValue r g b)) (clamp (vValue r g b)) =
            some (st'.yuv, st'.uvIndex)) ∨
        (chromaGuard j (st.index + 1) = false ∧ st'.yuv = yuv1 ∧
          st'.uvIndex = st.uvIndex)) := by
  unfold processPixel at h
  obtain ⟨r, hr, h⟩ := optionBind_some h
  obtain ⟨g, hg, h⟩ := optionBind_some h
  obtain ⟨b, hb, h⟩ := optionBind_some h
  obtain ⟨yuv1, hy, h⟩ := optionBind_some h
  refine ⟨r, g, b, yuv1, hr, hg, hb, hy, ?_⟩
  by_cases hguard : chromaGuard j (st.index + 1) = true
  · rw [if_pos hguard] at h
    obtain ⟨⟨yuv2, uv2⟩, hsto, h⟩ := optionBind_some h
    have h' : (⟨yuv2, st.yIndex + 1, uv2, st.index + 1⟩ : ConvState) = st' := by
      simpa using h
    subst h'
    exact ⟨rfl, rfl, Or.inl ⟨hguard, hsto⟩⟩
  · rw [if_neg hguard] at h
    have h' : (⟨yuv1, st.yIndex + 1, st.uvIndex, st.index + 1⟩ : ConvState) = st' := by
      simpa using h
    subst h'
    exact ⟨rfl, rfl, Or.inr ⟨Bool.not_eq_true _ ▸ hguard, rfl, rfl⟩⟩

/-- Constructor for a `processPixel` step whose chroma guard is off. -/
theorem processPixel_eq_noStore {img : List Nat} {bpp : Nat} {store : StoreUV}
    {cs j : Nat} {st : ConvState} {r g b : Nat}
    (hr : img.get? (st.index * bpp) = some r)
    (hg : img.get? (st.index * bpp + 1) = some g)
    (hb : img.get? (st.index * bpp + 2) = some b)
    (hy : st.yIndex < st.yuv.length)
    (hguard : chromaGuard j (st.index + 1) = false) :
    processPixel img bpp store cs j st =
      some ⟨st.yuv.set st.yIndex (clamp ((yValue r g b : Nat) : Int)),
        st.yIndex + 1, st.uvIndex, st.index + 1⟩ := by
  rw [List.get?_eq_getElem?] at hr hg hb
  simp [processPixel, hr, hg, hb, setByte, hy, hguard]

/-- Constructor for a `processPixel` step whose chroma guard fires. -/
theorem processPixel_eq_store {img : List Nat} {bpp : Nat} {store : StoreUV}
    {cs j : Nat} {st : ConvState} {r g b : Nat} {yuv2 : List Nat} {uv2 : Nat}
    (hr : img.get? (st.index * bpp) = some r)
    (hg : img.get? (st.index * bpp + 1) = some g)
    (hb : img.get? (st.index * bpp + 2) = some b)
    (hy : st.yIndex < st.yuv.length)
    (hguard : chromaGuard j (st.index + 1) = true)
    (hsto : store (st.yuv.set st.yIndex (clamp ((yValue r g b : Nat) : Int)))
      st.uvIndex cs (clamp (uValue r g b)) (clamp (vValue r g b)) = some (yuv2, uv2)) :
    processPixel img bpp store cs j st =
      some ⟨yuv2, st.yIndex + 1, uv2, st.index + 1⟩ := by
  rw [List.get?_eq_getElem?] at hr hg hb
  simp [processPixel, hr, hg, hb, setByte, hy, hguard, hsto]

/-- Inversion for a successful inner-loop run of positive length. -/
theorem innerLoop_succ_inv {img : List Nat} {bpp : Nat} {store : StoreUV}
    {cs j n : Nat} {st final : ConvState}
    (h : innerLoop img bpp store cs j (n + 1) st = some final) :
    ∃ st1, processPixel img bpp store cs j st = some st1 ∧
      innerLoop img bpp store cs j n st1 = some final := by
  rw [innerLoop] at h
  exact optionBind_some h

/-- Inversion for a successful outer-loop run of positive length. -/
theorem outerLoop_succ_inv {img : List Nat} {bpp : Nat} {store : StoreUV}
    {cs w j rem : Nat} {st final : ConvState}
    (h : outerLoop img bpp store cs w j (rem + 1) st = some final) :
    ∃ st1, innerLoop img bpp store cs j w st = some st1 ∧
      outerLoop img bpp store cs w (j + 1) rem st1 = some final := by
  rw [outerLoop] at h
  exact optionBind_some h

/-- A property preserved by every pixel step is preserved by the inner
loop. -/
theorem innerLoop_preserves {img : List Nat} {bpp : Nat} {store : StoreUV}
    {cs : Nat} {P : ConvState → Prop}
    (hstep : ∀ j st st', processPixel img bpp store cs j st = some st' → P st → P st') :
    ∀ n j st final, innerLoop img bpp store cs j n st = some final → P st → P final := by
  intro n
  induction n with
  | zero =>
    intro j st final h hP
    rw [innerLoop] at h
    cases h
    exact hP
  | succ n ih =>
    intro j st final h hP
    obtain ⟨st1, h1, h2⟩ := innerLoop_succ_inv h
    exact ih j st1 final h2 (hstep j st st1 h1 hP)

/-- A property preserved by every pixel step is preserved by the outer
loop. -/
theorem outerLoop_preserves {img : List Nat} {bpp : Nat} {store : StoreUV}
    {cs w : Nat} {P : ConvState → Prop}
    (hstep : ∀ j st st', processPixel img bpp store cs j st = some st' → P st → P st') :
    ∀ rem j st final, outerLoop img bpp store cs w j rem st = some final → P st → P final := by
  intro rem
  induction rem with
  | zero =>
    intro j st final h hP
    rw [outerLoop] at h
    cases h
    exact hP
  | succ rem ih =>
    intro j st final h hP
    obtain ⟨st1, h1, h2⟩ := outerLoop_succ_inv h
    exact ih (j + 1) st1 final h2 (innerLoop_preserves hstep w j st st1 h1 hP)

/-- Inversion of a successful top-level conversion. -/
theorem convert_some_inv {img : List Nat} {w h bpp : Nat} {store : StoreUV}
    {out : List Nat}
    (hc : convert_rgb_to_yuv420 img w h bpp store = some out) :
    ∃ final, outerLoop img bpp store (w * h / 4) w 0 h
        ⟨List.replicate (w * h * 3 / 2) 0, 0, w * h, 0⟩ = some final ∧
      out = final.yuv := by
  unfold convert_rgb_to_yuv420 at hc
  obtain ⟨final, h1, h2⟩ := optionBind_some hc
  cases h2
  exact ⟨final, h1, rfl⟩

/-! ## C4: the output length -/

/-- Any successful conversion (with either store strategy) returns a buffer
of exactly `width * height * 3 / 2` bytes. -/
theorem output_length_lemma {store : StoreUV} (hst : StoreInv store)
    {img : List Nat} {w h bpp : Nat} {out : List Nat}
    (hc : convert_rgb_to_yuv420 img w h bpp store = some out) :
    out.length = w * h * 3 / 2 := by
  obtain ⟨final, hloop, rfl⟩ := convert_some_inv hc
  refine outerLoop_preserves (P := fun st => st.yuv.length = w * h * 3 / 2)
    ?_ h 0 _ final hloop (by simp)
  intro j st st' hpix hlen
  obtain ⟨r, g, b, yuv1, hr, hg, hb, hset, hidx, hyidx, hbranch⟩ :=
    processPixel_some_inv hpix
  obtain ⟨hlt, rfl⟩ := setByte_some hset
  rcases hbranch with ⟨hguard, hsto⟩ | ⟨hguard, hyuv, huv⟩
  · have := (hst _ _ _ _ _ _ _ hsto).2.1
    simp only [this, List.length_set, hlen]
  · simp only [hyuv, List.length_set, hlen]

/-- C4: for every input and geometry, whenever `convert_rgb_to_yuv420p` or
`convert_rgb_to_yuv420sp_nv12` returns a buffer, that buffer has length
exactly `width * height * 3 / 2` (integer division), independently of
`bytes_per_pixel`. -/
theorem output_length_both (img : List Nat) (w h bpp : Nat) :
    (∀ out, convert_rgb_to_yuv420p img w h bpp = some out →
      out.length = w * h * 3 / 2) ∧
    (∀ out, convert_rgb_to_yuv420sp_nv12 img w h bpp = some out →
      out.length = w * h * 3 / 2) :=
  ⟨fun _ hc => output_length_lemma storeUVPlanar_inv hc,
   fun _ hc => output_length_lemma storeUVNv12_inv hc⟩

/-- Witness for C4 on the 2×2 all-black image with `bytes_per_pixel = 3`. -/
theorem output_length_both_witness :
    ([0, 0, 0, 0, 128, 128] : List Nat).length = 2 * 2 * 3 / 2 ∧
    ([0, 0, 0, 0, 128, 128] : List Nat).length = 2 * 2 * 3 / 2 :=
  ⟨(output_length_both (List.replicate 12 0) 2 2 3).1 [0, 0, 0, 0, 128, 128] (by decide),
   (output_length_both (List.replicate 12 0) 2 2 3).2 [0, 0, 0, 0, 128, 128] (by decide)⟩

/-! ## C8: degenerate geometry -/

/-- With `width = 0` the inner loop is empty, so the outer loop is the
identity on the state. -/
theorem outerLoop_width_zero {img : List Nat} {bpp : Nat} {store : StoreUV}
    {cs : Nat} : ∀ rem j st, outerLoop img bpp store cs 0 j rem st = some st := by
  intro rem
  induction rem with
  | zero => intro j st; rfl
  | succ n ih => intro j st; exact ih (j + 1) st

/-- C8: when `width = 0` or `height = 0`, both variants return the empty
buffer, for every input buffer and every `bytes_per_pixel` — no input byte
is read and no failure occurs. -/
theorem degenerate_geometry_empty_output (img : List Nat) (w h bpp : Nat)
    (hwh : w = 0 ∨ h = 0) :
    convert_rgb_to_yuv420p img w h bpp = some [] ∧
    convert_rgb_to_yuv420sp_nv12 img w h bpp = some [] := by
  have key : ∀ store : StoreUV, convert_rgb_to_yuv420 img w h bpp store = some [] := by
    intro store
    rcases hwh with rfl | rfl
    · simp [convert_rgb_to_yuv420, outerLoop_width_zero]
    · simp [convert_rgb_to_yuv420, outerLoop]
  exact ⟨key _, key _⟩

/-- Witness for C8 at `width = 0`, `height = 5`, a 3-byte junk input. -/
theorem degenerate_geometry_empty_output_witness :
    convert_rgb_to_yuv420p [1, 2, 3] 0 5 3 = some [] ∧
    convert_rgb_to_yuv420sp_nv12 [1, 2, 3] 0 5 3 = some [] :=
  degenerate_geometry_empty_output [1, 2, 3] 0 5 3 (Or.inl rfl)

/-! ## C7: the all-zero input -/

/-- On an all-zero input, any successful conversion has an all-zero luma
plane and only the neutral value 128 (or untouched zero padding) anywhere
else. -/
theorem zero_input_lemma {store : StoreUV} (hst : StoreInv store)
    {w h bpp n : Nat} {out : List Nat}
    (hc : convert_rgb_to_yuv420 (List.replicate n 0) w h bpp store = some out) :
    (∀ p, p < w * h → out.get? p = some 0) ∧
    (∀ p x, out.get? p = some x → x = 0 ∨ x = 128) := by
  obtain ⟨final, hloop, rfl⟩ := convert_some_inv hc
  have hfinal :
      (fun st => (∀ p, p < w * h → st.yuv.get? p = some 0) ∧
        (∀ p x, st.yuv.get? p = some x → x = 0 ∨ x = 128) ∧
        w * h ≤ st.uvIndex) final := by
    refine outerLoop_preserves
      (P := fun st => (∀ p, p < w * h → st.yuv.get? p = some 0) ∧
        (∀ p x, st.yuv.get? p = some x → x = 0 ∨ x = 128) ∧
        w * h ≤ st.uvIndex) ?_ h 0 _ final hloop ?_
    · intro j st st' hpix hP
      obtain ⟨hluma, hvals, huv⟩ := hP
      obtain ⟨r, g, b, yuv1, hr, hg, hb, hset, hidx, hyidx, hbranch⟩ :=
        processPixel_some_inv hpix
      have hr0 : r = 0 := List.eq_of_mem_replicate (List.get?_mem hr)
      have hg0 : g = 0 := List.eq_of_mem_replicate (List.get?_mem hg)
      have hb0 : b = 0 := List.eq_of_mem_replicate (List.get?_mem hb)
      subst hr0 hg0 hb0
      have hy0 : clamp ((yValue 0 0 0 : Nat) : Int) = 0 := by decide
      obtain ⟨hlt, rfl⟩ := setByte_some hset
      rw [hy0] at hbranch
      have hluma1 : ∀ p, p < w * h → (st.yuv.set st.yIndex 0).get? p = some 0 := by
        intro p hp
        by_cases hpy : st.yIndex = p
        · subst hpy
          exact List.get?_set_eq_of_lt _ hlt
        · rw [List.get?_set_ne _ _ hpy]
          exact hluma p hp
      have hvals1 : ∀ p x, (st.yuv.set st.yIndex 0).get? p = some x →
          x = 0 ∨ x = 128 := by
        intro p x hx
        by_cases hpy : st.yIndex = p
        · subst hpy
          rw [List.get?_set_eq_of_lt _ hlt] at hx
          exact Or.inl (Option.some.inj hx).symm
        · rw [List.get?_set_ne _ _ hpy] at hx
          exact hvals p x hx
      rcases hbranch with ⟨hguard, hsto⟩ | ⟨hguard, hyuv, huveq⟩
      · have hu0 : clamp (uValue 0 0 0) = 128 := by decide
        have hv0 : clamp (vValue 0 0 0) = 128 := by decide
        rw [hu0, hv0] at hsto
        obtain ⟨hmono, hlen, hbelow, hcases⟩ := hst _ _ _ _ _ _ _ hsto
        refine ⟨?_, ?_, by omega⟩
        · intro p hp
          rw [hbelow p (by omega)]
          exact hluma1 p hp
        · intro p x hx
          rcases hcases p x hx with rfl | rfl | hold
          · exact Or.inr rfl
          · exact Or.inr rfl
          · exact hvals1 p x hold
      · rw [hyuv, huveq]
        exact ⟨hluma1, hvals1, huv⟩
    · refine ⟨?_, ?_, le_refl _⟩
      · intro p hp
        have hple : p < w * h * 3 / 2 := by omega
        simp [List.getElem?_replicate, hple]
      · intro p x hx
        exact Or.inl (List.eq_of_mem_replicate (List.get?_mem hx))
  exact ⟨hfinal.1, hfinal.2.1⟩

/-- C7: every all-zero (all-black) input yields, for both variants and any
geometry that completes, an all-zero luma plane, the stored chroma value
128 everywhere chroma is stored (all computed chroma bytes are
`clamp (uValue 0 0 0) = clamp (vValue 0 0 0) = 128`), and in particular
the 2×2, `bytes_per_pixel = 3` instance returns `[0,0,0,0,128,128]` for
both variants. -/
theorem all_zero_input_black_output :
    (∀ w h bpp n out,
      (convert_rgb_to_yuv420p (List.replicate n 0) w h bpp = some out ∨
        convert_rgb_to_yuv420sp_nv12 (List.replicate n 0) w h bpp = some out) →
      (∀ p, p < w * h → out.get? p = some 0) ∧
      (∀ p x, out.get? p = some x → x = 0 ∨ x = 128)) ∧
    clamp ((yValue 0 0 0 : Nat) : Int) = 0 ∧
    clamp (uValue 0 0 0) = 128 ∧
    clamp (vValue 0 0 0) = 128 ∧
    convert_rgb_to_yuv420p (List.replicate 12 0) 2 2 3 =
      some [0, 0, 0, 0, 128, 128] ∧
    convert_rgb_to_yuv420sp_nv12 (List.replicate 12 0) 2 2 3 =
      some [0, 0, 0, 0, 128, 128] := by
  refine ⟨?_, by decide, by decide, by decide, by decide, by decide⟩
  intro w h bpp n out hc
  rcases hc with hc | hc
  · exact zero_input_lemma storeUVPlanar_inv hc
  · exact zero_input_lemma storeUVNv12_inv hc

/-- Witness for C7's quantified part at the 2×2 all-black instance. -/
theorem all_zero_input_black_output_witness :
    ([0, 0, 0, 0, 128, 128] : List Nat).get? 0 = some 0 ∧
    (0 : Nat) = 0 ∨ (0 : Nat) = 128 :=
  Or.inl
    ⟨(all_zero_input_black_output.1 2 2 3 12 [0, 0, 0, 0, 128, 128]
        (Or.inl (by decide))).1 0 (by decide), rfl⟩

/-! ## C5: the luma planes of the two variants coincide -/

/-- Coupling relation between a planar-variant state and an NV12-variant
state: the cursors agree, the buffers agree on the luma region `[0, fs)`,
and both chroma cursors sit at or beyond `fs`. -/
def Coupled (fs : Nat) (st1 st2 : ConvState) : Prop :=
  st1.index = st2.index ∧ st1.yIndex = st2.yIndex ∧
  (∀ p, p < fs → st1.yuv.get? p = st2.yuv.get? p) ∧
  fs ≤ st1.uvIndex ∧ fs ≤ st2.uvIndex

/-- One pixel step preserves the coupling: both runs read the same pixel,
write the same luma byte at the same place, and only touch positions at or
beyond `fs` with their (differently placed) chroma writes. -/
theorem processPixel_couple {img : List Nat} {bpp cs j fs : Nat}
    {st1 st2 st1' st2' : ConvState}
    (h1 : processPixel img bpp storeUVPlanar cs j st1 = some st1')
    (h2 : processPixel img bpp storeUVNv12 cs j st2 = some st2')
    (hR : Coupled fs st1 st2) : Coupled fs st1' st2' := by
  obtain ⟨hidx, hyidx, hget, huv1, huv2⟩ := hR
  obtain ⟨r1, g1, b1, yuv1, hr1, hg1, hb1, hset1, hidx1, hyidx1, hbr1⟩ :=
    processPixel_some_inv h1
  obtain ⟨r2, g2, b2, yuv2, hr2, hg2, hb2, hset2, hidx2, hyidx2, hbr2⟩ :=
    processPixel_some_inv h2
  rw [hidx] at hr1 hg1 hb1
  rw [hr1] at hr2
  rw [hg1] at hg2
  rw [hb1] at hb2
  obtain ⟨rfl, rfl, rfl⟩ : r1 = r2 ∧ g1 = g2 ∧ b1 = b2 :=
    ⟨Option.some.inj hr2, Option.some.inj hg2, Option.some.inj hb2⟩
  obtain ⟨hlt1, rfl⟩ := setByte_some hset1
  obtain ⟨hlt2, rfl⟩ := setByte_some hset2
  have hglue : ∀ p, p < fs →
      (st1.yuv.set st1.yIndex (clamp ((yValue r1 g1 b1 : Nat) : Int))).get? p =
      (st2.yuv.set st2.yIndex (clamp ((yValue r1 g1 b1 : Nat) : Int))).get? p := by
    intro p hp
    rw [hyidx, List.get?_set, List.get?_set, hget p hp]
  have hguard : chromaGuard j (st1.index + 1) = chromaGuard j (st2.index + 1) := by
    rw [hidx]
  rcases hbr1 with ⟨hgon1, hsto1⟩ | ⟨hgoff1, hyuv1, huvi1⟩ <;>
    rcases hbr2 with ⟨hgon2, hsto2⟩ | ⟨hgoff2, hyuv2, huvi2⟩
  · obtain ⟨hmono1, hlen1, hbelow1, -⟩ := storeUVPlanar_inv _ _ _ _ _ _ _ hsto1
    obtain ⟨hmono2, hlen2, hbelow2, -⟩ := storeUVNv12_inv _ _ _ _ _ _ _ hsto2
    refine ⟨by omega, by omega, ?_, by omega, by omega⟩
    intro p hp
    rw [hbelow1 p (by omega), hbelow2 p (by omega)]
    exact hglue p hp
  · rw [hgon1, hgoff2] at hguard
    cases hguard
  · rw [hgoff1, hgon2] at hguard
    cases hguard
  · refine ⟨by omega, by omega, ?_, by omega, by omega⟩
    intro p hp
    rw [hyuv1, hyuv2]
    exact hglue p hp

/-- The coupling is preserved by whole inner-loop runs. -/
theorem innerLoop_couple {img : List Nat} {bpp cs j fs : Nat} :
    ∀ n {st1 st2 f1 f2 : ConvState},
      innerLoop img bpp storeUVPlanar cs j n st1 = some f1 →
      innerLoop img bpp storeUVNv12 cs j n st2 = some f2 →
      Coupled fs st1 st2 → Coupled fs f1 f2 := by
  intro n
  induction n with
  | zero =>
    intro st1 st2 f1 f2 h1 h2 hR
    rw [innerLoop] at h1 h2
    cases h1
    cases h2
    exact hR
  | succ n ih =>
    intro st1 st2 f1 f2 h1 h2 hR
    obtain ⟨s1, hs1, h1'⟩ := innerLoop_succ_inv h1
    obtain ⟨s2, hs2, h2'⟩ := innerLoop_succ_inv h2
    exact ih h1' h2' (processPixel_couple hs1 hs2 hR)

/-- The coupling is preserved by whole outer-loop runs. -/
theorem outerLoop_couple {img : List Nat} {bpp cs w fs : Nat} :
    ∀ rem j {st1 st2 f1 f2 : ConvState},
      outerLoop img bpp storeUVPlanar cs w j rem st1 = some f1 →
      outerLoop img bpp storeUVNv12 cs w j rem st2 = some f2 →
      Coupled fs st1 st2 → Coupled fs f1 f2 := by
  intro rem
  induction rem with
  | zero =>
    intro j st1 st2 f1 f2 h1 h2 hR
    rw [outerLoop] at h1 h2
    cases h1
    cases h2
    exact hR
  | succ rem ih =>
    intro j st1 st2 f1 f2 h1 h2 hR
    obtain ⟨s1, hs1, h1'⟩ := outerLoop_succ_inv h1
    obtain ⟨s2, hs2, h2'⟩ := outerLoop_succ_inv h2
    exact ih (j + 1) h1' h2' (innerLoop_couple w hs1 hs2 hR)

/-- C5: whenever both variants produce an output on the same input and
geometry, the first `width * height` bytes — the luma plane — agree
byte for byte. -/
theorem luma_plane_identical (img : List Nat) (w h bpp : Nat)
    (out1 out2 : List Nat)
    (h1 : convert_rgb_to_yuv420p img w h bpp = some out1)
    (h2 : convert_rgb_to_yuv420sp_nv12 img w h bpp = some out2) :
    ∀ p, p < w * h → out1.get? p = out2.get? p := by
  obtain ⟨f1, hl1, rfl⟩ := convert_some_inv h1
  obtain ⟨f2, hl2, rfl⟩ := convert_some_inv h2
  have hR : Coupled (w * h) f1 f2 :=
    outerLoop_couple h 0 hl1 hl2
      ⟨rfl, rfl, fun p _ => rfl, le_refl _, le_refl _⟩
  exact hR.2.2.1

/-- Witness for C5 on the 2×2 all-black image. -/
theorem luma_plane_identical_witness :
    ([0, 0, 0, 0, 128, 128] : List Nat).get? 0 =
      ([0, 0, 0, 0, 128, 128] : List Nat).get? 0 :=
  luma_plane_identical (List.replicate 12 0) 2 2 3
    [0, 0, 0, 0, 128, 128] [0, 0, 0, 0, 128, 128]
    (by decide) (by decide) 0 (by decide)

/-! ## C10: both conversions succeed on even geometry -/

/-- The blue-sample read of any pixel strictly inside the frame is in
bounds when the input holds at least `frame_size * bytes_per_pixel`
samples. -/
theorem read_index_lt {idx fsz bpp len : Nat} (h1 : idx < fsz) (h2 : 3 ≤ bpp)
    (h3 : fsz * bpp ≤ len) : idx * bpp + 2 < len := by
  have h4 : (idx + 1) * bpp ≤ fsz * bpp := Nat.mul_le_mul_right bpp h1
  have h5 : (idx + 1) * bpp = idx * bpp + bpp := by ring
  omega

/-- All three sample reads of a pixel strictly inside the frame succeed. -/
theorem pixel_reads {img : List Nat} {bpp fsz : Nat} (idx : Nat)
    (hidx : idx < fsz) (hbpp : 3 ≤ bpp) (himg : fsz * bpp ≤ img.length) :
    ∃ r g b, img.get? (idx * bpp) = some r ∧
      img.get? (idx * bpp + 1) = some g ∧ img.get? (idx * bpp + 2) = some b := by
  have h2 : idx * bpp + 2 < img.length := read_index_lt hidx hbpp himg
  have h0 : idx * bpp < img.length := by omega
  have h1 : idx * bpp + 1 < img.length := by omega
  exact ⟨_, _, _, List.get?_eq_get h0, List.get?_eq_get h1, List.get?_eq_get h2⟩

/-- The chroma guard is off on odd rows. -/
theorem chromaGuard_off_row {j x : Nat} (hj : j % 2 = 1) : chromaGuard j x = false := by
  simp [chromaGuard]
  omega

/-- The chroma guard is off at odd 1-based pixel counts. -/
theorem chromaGuard_off_col {j x : Nat} (hx : x % 2 = 1) : chromaGuard j x = false := by
  simp [chromaGuard]
  omega

/-- The chroma guard fires on even rows at even 1-based pixel counts. -/
theorem chromaGuard_on {j x : Nat} (hj : j % 2 = 0) (hx : x % 2 = 0) :
    chromaGuard j x = true := by
  simp [chromaGuard, hj, hx]

/-- A pixel step with the guard off succeeds whenever the reads and the
luma write are in bounds. -/
theorem pixel_ok_noguard {img : List Nat} {bpp : Nat} {store : StoreUV}
    {cs j fsz L : Nat} {st : ConvState}
    (hbpp : 3 ≤ bpp) (himg : fsz * bpp ≤ img.length) (hfsL : fsz ≤ L)
    (h1 : st.index < fsz) (h2 : st.yIndex = st.index) (h3 : st.yuv.length = L)
    (hguard : chromaGuard j (st.index + 1) = false) :
    ∃ st', processPixel img bpp store cs j st = some st' ∧
      st'.index = st.index + 1 ∧ st'.yIndex = st.index + 1 ∧
      st'.uvIndex = st.uvIndex ∧ st'.yuv.length = L := by
  obtain ⟨r, g, b, hr, hg, hb⟩ := pixel_reads st.index h1 hbpp himg
  refine ⟨_, processPixel_eq_noStore hr hg hb (by omega) hguard, rfl, ?_, rfl, ?_⟩
  · simp [h2]
  · simp [h3]

/-- A pixel step with the guard on succeeds whenever the reads, the luma
write, and the (strategy-specific) chroma writes are in bounds; the chroma
cursor advances by the strategy's stride `δ`. -/
theorem pixel_ok_guard {img : List Nat} {bpp : Nat} {store : StoreUV}
    {cs j fsz L δ e : Nat} {st : ConvState}
    (hbpp : 3 ≤ bpp) (himg : fsz * bpp ≤ img.length) (hfsL : fsz ≤ L)
    (hstore : ∀ yuv uv u v e', yuv.length = L → e' < cs → uv = fsz + δ * e' →
      ∃ yuv', store yuv uv cs u v = some (yuv', uv + δ) ∧ yuv'.length = L)
    (h1 : st.index < fsz) (h2 : st.yIndex = st.index) (h3 : st.yuv.length = L)
    (he : e < cs) (huv : st.uvIndex = fsz + δ * e)
    (hguard : chromaGuard j (st.index + 1) = true) :
    ∃ st', processPixel img bpp store cs j st = some st' ∧
      st'.index = st.index + 1 ∧ st'.yIndex = st.index + 1 ∧
      st'.uvIndex = fsz + δ * (e + 1) ∧ st'.yuv.length = L := by
  obtain ⟨r, g, b, hr, hg, hb⟩ := pixel_reads st.index h1 hbpp himg
  obtain ⟨yuv2, hsto, hlen2⟩ :=
    hstore (st.yuv.set st.yIndex (clamp ((yValue r g b : Nat) : Int))) st.uvIndex
      (clamp (uValue r g b)) (clamp (vValue r g b)) e (by simp [h3]) he huv
  refine ⟨_, processPixel_eq_store hr hg hb (by omega) hguard hsto, rfl, ?_, ?_, hlen2⟩
  · simp [h2]
  · simp [huv, Nat.mul_succ]
    omega

/-- An odd row runs to completion without chroma events. -/
theorem row_odd {img : List Nat} {bpp : Nat} {store : StoreUV} {cs fsz L : Nat}
    (hbpp : 3 ≤ bpp) (himg : fsz * bpp ≤ img.length) (hfsL : fsz ≤ L)
    (j : Nat) (hj : j % 2 = 1) :
    ∀ n (st : ConvState), st.yIndex = st.index → st.yuv.length = L →
      st.index + n ≤ fsz →
      ∃ st', innerLoop img bpp store cs j n st = some st' ∧
        st'.index = st.index + n ∧ st'.yIndex = st.index + n ∧
        st'.uvIndex = st.uvIndex ∧ st'.yuv.length = L := by
  intro n
  induction n with
  | zero =>
    intro st h2 h3 h4
    exact ⟨st, by rw [innerLoop], by omega, by omega, rfl, h3⟩
  | succ n ih =>
    intro st h2 h3 h4
    obtain ⟨st1, hp1, hi1, hy1, huv1, hl1⟩ :=
      pixel_ok_noguard hbpp himg hfsL (by omega) h2 h3 (chromaGuard_off_row hj)
    obtain ⟨st', hrun, hi2, hy2, huv2, hl2⟩ := ih st1 (by omega) hl1 (by omega)
    refine ⟨st', ?_, by omega, by omega, by omega, hl2⟩
    rw [innerLoop, hp1]
    exact hrun

/-- An even row of even width `2 * m` runs to completion, firing exactly
one chroma event per column pair and advancing the chroma cursor by the
strategy stride `δ` per event. -/
theorem row_even {img : List Nat} {bpp : Nat} {store : StoreUV} {cs fsz L δ : Nat}
    (hbpp : 3 ≤ bpp) (himg : fsz * bpp ≤ img.length) (hfsL : fsz ≤ L)
    (hstore : ∀ yuv uv u v e', yuv.length = L → e' < cs → uv = fsz + δ * e' →
      ∃ yuv', store yuv uv cs u v = some (yuv', uv + δ) ∧ yuv'.length = L)
    (j : Nat) (hj : j % 2 = 0) :
    ∀ m (st : ConvState) e, st.yIndex = st.index → st.index % 2 = 0 →
      st.yuv.length = L → st.index + 2 * m ≤ fsz →
      st.uvIndex = fsz + δ * e → e + m ≤ cs →
      ∃ st', innerLoop img bpp store cs j (2 * m) st = some st' ∧
        st'.index = st.index + 2 * m ∧ st'.yIndex = st.index + 2 * m ∧
        st'.uvIndex = fsz + δ * (e + m) ∧ st'.yuv.length = L := by
  intro m
  induction m with
  | zero =>
    intro st e h2 hpar h3 h4 huv he
    refine ⟨st, ?_, by omega, by omega, by simp [huv], h3⟩
    norm_num [innerLoop]
  | succ m ih =>
    intro st e h2 hpar h3 h4 huv he
    obtain ⟨st1, hp1, hi1, hy1, huv1, hl1⟩ :=
      pixel_ok_noguard hbpp himg hfsL (by omega) h2 h3
        (chromaGuard_off_col (by omega))
    obtain ⟨st2, hp2, hi2, hy2, huv2, hl2⟩ :=
      pixel_ok_guard hbpp himg hfsL hstore (by omega) (by omega) hl1
        (show e < cs by omega) (show st1.uvIndex = fsz + δ * e by omega)
        (chromaGuard_on hj (by omega))
    obtain ⟨st', hrun, hi3, hy3, huv3, hl3⟩ :=
      ih st2 (e + 1) (by omega) (by omega) hl2 (by omega) huv2 (by omega)
    refine ⟨st', ?_, by omega, by omega, ?_, hl3⟩
    · have hstep : (2 : Nat) * (m + 1) = (2 * m + 1) + 1 := by ring
      rw [hstep, innerLoop, hp1]
      show innerLoop img bpp store cs j (2 * m + 1) st1 = some st'
      rw [innerLoop, hp2]
      exact hrun
    · have harith : (e + 1) + m = e + (m + 1) := by omega
      rw [huv3, harith]

/-- From an even row `j`, an even number `2 * t` of remaining rows runs to
completion: each even row fires `a = w / 2` chroma events and each odd row
none, so the chroma cursor stays within its region. -/
theorem rows_ok {img : List Nat} {bpp : Nat} {store : StoreUV}
    {cs fsz L δ w h a : Nat}
    (hbpp : 3 ≤ bpp) (himg : fsz * bpp ≤ img.length) (hfsL : fsz ≤ L)
    (hstore : ∀ yuv uv u v e', yuv.length = L → e' < cs → uv = fsz + δ * e' →
      ∃ yuv', store yuv uv cs u v = some (yuv', uv + δ) ∧ yuv'.length = L)
    (hw : w = 2 * a) (hfs : fsz = w * h) :
    ∀ t j e (st : ConvState), j + 2 * t ≤ h → j % 2 = 0 →
      st.index = j * w → st.yIndex = st.index → st.yuv.length = L →
      st.uvIndex = fsz + δ * e → e + t * a ≤ cs →
      ∃ st', outerLoop img bpp store cs w j (2 * t) st = some st' ∧
        st'.yuv.length = L := by
  intro t
  induction t with
  | zero =>
    intro j e st _ _ _ _ h5 _ _
    refine ⟨st, ?_, h5⟩
    norm_num [outerLoop]
  | succ t ih =>
    intro j e st h1 h2 h3 h4 h5 h6 h7
    obtain ⟨s, hs⟩ : ∃ s, j = 2 * s := ⟨j / 2, by omega⟩
    have hidxpar : st.index % 2 = 0 := by
      have hx : st.index = 2 * (s * w) := by rw [h3, hs]; ring
      omega
    have hmul1 : (j + 1) * w ≤ h * w := Nat.mul_le_mul_right w (by omega)
    have hmul2 : (j + 2) * w ≤ h * w := Nat.mul_le_mul_right w (by omega)
    have hjw1 : (j + 1) * w = j * w + w := by ring
    have hjw2 : (j + 2) * w = j * w + 2 * w := by ring
    have hhw : h * w = fsz := by rw [hfs]; ring
    have hsucc : (t + 1) * a = t * a + a := by ring
    have h2a : 2 * a = w := hw.symm
    obtain ⟨st1, hrow1, hi1, hy1, huv1, hl1⟩ :=
      row_even hbpp himg hfsL hstore j h2 a st e h4 hidxpar h5
        (by omega) h6 (by omega)
    have hroww : innerLoop img bpp store cs j w st = some st1 := by
      rw [hw]
      exact hrow1
    obtain ⟨st2, hrow2, hi2, hy2, huv2, hl2⟩ :=
      row_odd hbpp himg hfsL (j + 1) (by omega) w st1 (by omega) hl1 (by omega)
    obtain ⟨st', hrun, hl3⟩ :=
      ih (j + 2) (e + a) st2 (by omega) (by omega) (by omega) (by omega) hl2
        (by omega) (by omega)
    refine ⟨st', ?_, hl3⟩
    have hstep : (2 : Nat) * (t + 1) = (2 * t + 1) + 1 := by ring
    rw [hstep, outerLoop, hroww]
    show outerLoop img bpp store cs w (j + 1) (2 * t + 1) st1 = some st'
    rw [outerLoop, hrow2]
    exact hrun

/-- Success of both variants over the idealized (unbounded-`u32`) kernel:
on even geometry (`width, height` even and at least 2), with
`bytes_per_pixel ≥ 3` and an input of at least
`width * height * bytes_per_pixel` samples, every write of both variants is
in bounds, both conversions return a buffer, and the planar variant's
farthest chroma write index `w*h + (chroma_size - 1) + ceil(chroma_size/2)`
is strictly below the output length `w*h*3/2`. -/
theorem conversions_succeed_ideal (w h bpp : Nat) (img : List Nat)
    (hw : 2 ∣ w) (hh : 2 ∣ h) (hw2 : 2 ≤ w) (hh2 : 2 ≤ h)
    (hbpp : 3 ≤ bpp) (himg : w * h * bpp ≤ img.length) :
    (convert_rgb_to_yuv420p img w h bpp).isSome = true ∧
    (convert_rgb_to_yuv420sp_nv12 img w h bpp).isSome = true ∧
    w * h + (w * h / 4 - 1) + ceilHalf (w * h / 4) < w * h * 3 / 2 := by
  obtain ⟨a, rfl⟩ := hw
  obtain ⟨b, rfl⟩ := hh
  have hfs4 : 2 * a * (2 * b) = 4 * (a * b) := by ring
  have hab1 : 1 ≤ a * b := by
    have h1a : 1 ≤ a := by omega
    have h1b : 1 ≤ b := by omega
    exact Nat.mul_pos h1a h1b
  have hcs : 2 * a * (2 * b) / 4 = a * b := by omega
  have hL : 2 * a * (2 * b) * 3 / 2 = 2 * a * (2 * b) + 2 * (a * b) := by omega
  have hfsL : 2 * a * (2 * b) ≤ 2 * a * (2 * b) * 3 / 2 := by omega
  have hba : b * a = a * b := by ring
  have hplanar : ∀ yuv uv (u v e' : Nat),
      yuv.length = 2 * a * (2 * b) * 3 / 2 → e' < 2 * a * (2 * b) / 4 →
      uv = 2 * a * (2 * b) + 1 * e' →
      ∃ yuv', storeUVPlanar yuv uv (2 * a * (2 * b) / 4) u v =
        some (yuv', uv + 1) ∧ yuv'.length = 2 * a * (2 * b) * 3 / 2 := by
    intro yuv uv u v e hlen he huv
    have hb1 : uv < yuv.length := by rw [hlen]; omega
    have hb2 : uv + ceilHalf (2 * a * (2 * b) / 4) < yuv.length := by
      rw [hlen]
      unfold ceilHalf
      omega
    refine ⟨(yuv.set uv u).set (uv + ceilHalf (2 * a * (2 * b) / 4)) v, ?_,
      by simp [hlen]⟩
    simp [storeUVPlanar, setByte, hb1, List.length_set,
      (by simpa using hb2 : uv + ceilHalf (2 * a * (2 * b) / 4) < yuv.length)]
  have hnv12 : ∀ yuv uv (u v e' : Nat),
      yuv.length = 2 * a * (2 * b) * 3 / 2 → e' < 2 * a * (2 * b) / 4 →
      uv = 2 * a * (2 * b) + 2 * e' →
      ∃ yuv', storeUVNv12 yuv uv (2 * a * (2 * b) / 4) u v =
        some (yuv', uv + 2) ∧ yuv'.length = 2 * a * (2 * b) * 3 / 2 := by
    intro yuv uv u v e hlen he huv
    have hb1 : uv < yuv.length := by rw [hlen]; omega
    have hb2 : uv + 1 < yuv.length := by rw [hlen]; omega
    refine ⟨(yuv.set uv u).set (uv + 1) v, ?_, by simp [hlen]⟩
    simp [storeUVNv12, setByte, hb1, List.length_set,
      (by simpa using hb2 : uv + 1 < yuv.length)]
  obtain ⟨st1, hrun1, -⟩ :=
    rows_ok hbpp himg hfsL hplanar rfl rfl b 0 0
      ⟨List.replicate (2 * a * (2 * b) * 3 / 2) 0, 0, 2 * a * (2 * b), 0⟩
      (by omega) (by omega) (by simp) rfl (by simp) (by simp) (by omega)
  obtain ⟨st2, hrun2, -⟩ :=
    rows_ok hbpp himg hfsL hnv12 rfl rfl b 0 0
      ⟨List.replicate (2 * a * (2 * b) * 3 / 2) 0, 0, 2 * a * (2 * b), 0⟩
      (by omega) (by omega) (by simp) rfl (by simp) (by simp) (by omega)
  have hconv1 : convert_rgb_to_yuv420 img (2 * a) (2 * b) bpp storeUVPlanar =
      some st1.yuv := by
    show (outerLoop img bpp storeUVPlanar (2 * a * (2 * b) / 4) (2 * a) 0 (2 * b)
        ⟨List.replicate (2 * a * (2 * b) * 3 / 2) 0, 0, 2 * a * (2 * b), 0⟩) >>=
      (fun st => some st.yuv) = some st1.yuv
    rw [hrun1]
    rfl
  have hconv2 : convert_rgb_to_yuv420 img (2 * a) (2 * b) bpp storeUVNv12 =
      some st2.yuv := by
    show (outerLoop img bpp storeUVNv12 (2 * a * (2 * b) / 4) (2 * a) 0 (2 * b)
        ⟨List.replicate (2 * a * (2 * b) * 3 / 2) 0, 0, 2 * a * (2 * b), 0⟩) >>=
      (fun st => some st.yuv) = some st2.yuv
    rw [hrun2]
    rfl
  refine ⟨?_, ?_, ?_⟩
  · rw [convert_rgb_to_yuv420p, hconv1]
    rfl
  · rw [convert_rgb_to_yuv420sp_nv12, hconv2]
    rfl
  · unfold ceilHalf
    omega

/-- The exact-`u32` model and the idealized model coincide whenever the
`u32` products of the allocation code cannot overflow. -/
theorem u32_model_agrees {img : List Nat} {w h bpp : Nat} {store : StoreUV}
    (hlt : w * h * 3 < 4294967296) :
    convert_rgb_to_yuv420_u32 img w h bpp store =
      convert_rgb_to_yuv420 img w h bpp store := by
  have h1 : wrapU32 (w * h) = w * h := Nat.mod_eq_of_lt (by omega)
  have h2 : wrapU32 (w * h * 3) = w * h * 3 := Nat.mod_eq_of_lt hlt
  simp only [convert_rgb_to_yuv420_u32, convert_rgb_to_yuv420, h1, h2]

/-- On a zero-length output buffer every pixel step fails: either a read
fails, or the luma write is out of bounds. -/
theorem processPixel_empty_buffer (img : List Nat) (bpp : Nat)
    (store : StoreUV) (cs j yi uv idx : Nat) :
    processPixel img bpp store cs j ⟨[], yi, uv, idx⟩ = none := by
  cases hr : img[idx * bpp]? <;> cases hg : img[idx * bpp + 1]? <;>
    cases hb : img[idx * bpp + 2]? <;> simp [processPixel, hr, hg, hb, setByte]

/-- With a zero-length output buffer and positive geometry, the whole loop
fails on its very first pixel. -/
theorem outerLoop_empty_buffer {img : List Nat} {bpp : Nat} {store : StoreUV}
    {cs w rem : Nat} (j yi uv idx : Nat) (hw : 1 ≤ w) (hrem : 1 ≤ rem) :
    outerLoop img bpp store cs w j rem ⟨[], yi, uv, idx⟩ = none := by
  obtain ⟨m, rfl⟩ : ∃ m, w = m + 1 := ⟨w - 1, by omega⟩
  obtain ⟨t, rfl⟩ : ∃ t, rem = t + 1 := ⟨rem - 1, by omega⟩
  rw [outerLoop, innerLoop, processPixel_empty_buffer]
  rfl

/-- C10 (counterexample): at `width = height = 65536` — even, at least 2,
`bytes_per_pixel = 3`, input exactly `width * height * bytes_per_pixel`
samples long, so every hypothesis of the claim holds — the `u32` product
`width * height = 2^32` wraps to 0 (a debug build panics at the multiply),
the allocated buffer is empty, and the first luma write is out of bounds:
neither variant returns a buffer. -/
theorem u32_overflow_counterexample :
    2 ∣ 65536 ∧ (2 : Nat) ≤ 65536 ∧ (3 : Nat) ≤ 3 ∧
    (List.replicate (65536 * 65536 * 3) (0 : Nat)).length =
      65536 * 65536 * 3 ∧
    convert_rgb_to_yuv420p_u32 (List.replicate (65536 * 65536 * 3) 0)
      65536 65536 3 = none ∧
    convert_rgb_to_yuv420sp_nv12_u32 (List.replicate (65536 * 65536 * 3) 0)
      65536 65536 3 = none := by
  refine ⟨⟨32768, rfl⟩, by norm_num, le_refl 3, List.length_replicate .., ?_, ?_⟩
  · show (outerLoop (List.replicate (65536 * 65536 * 3) 0) 3 storeUVPlanar 0
        65536 0 65536 ⟨[], 0, 0, 0⟩) >>= (fun st => some st.yuv) = none
    rw [outerLoop_empty_buffer 0 0 0 0 (by norm_num) (by norm_num)]
    rfl
  · show (outerLoop (List.replicate (65536 * 65536 * 3) 0) 3 storeUVNv12 0
        65536 0 65536 ⟨[], 0, 0, 0⟩) >>= (fun st => some st.yuv) = none
    rw [outerLoop_empty_buffer 0 0 0 0 (by norm_num) (by norm_num)]
    rfl

/-- C10 (amended): on even geometry (`width, height` even and at least 2),
with `bytes_per_pixel ≥ 3`, an input of at least
`width * height * bytes_per_pixel` samples, and `width * height ≤ 2^26` —
so the `u32` products `width * height` and `width * height * 3` of the
allocation code cannot overflow and `chroma_size ≤ 2^24` is computed
exactly by the `f32` ceiling — every write of both variants is in bounds,
both conversions (exact-`u32` model) return a buffer with no
out-of-bounds panic, and the planar variant's farthest chroma write index
`w*h + (chroma_size - 1) + ceil(chroma_size/2)` is strictly below the
output length `w*h*3/2`. -/
theorem conversions_succeed_in_bounds (w h bpp : Nat) (img : List Nat)
    (hw : 2 ∣ w) (hh : 2 ∣ h) (hw2 : 2 ≤ w) (hh2 : 2 ≤ h)
    (hbpp : 3 ≤ bpp) (himg : w * h * bpp ≤ img.length)
    (hsmall : w * h ≤ 2 ^ 26) :
    (convert_rgb_to_yuv420p_u32 img w h bpp).isSome = true ∧
    (convert_rgb_to_yuv420sp_nv12_u32 img w h bpp).isSome = true ∧
    w * h + (w * h / 4 - 1) + ceilHalf (w * h / 4) < w * h * 3 / 2 := by
  have hlt : w * h * 3 < 4294967296 := by
    have h26 : (2 : Nat) ^ 26 = 67108864 := by norm_num
    omega
  obtain ⟨h1, h2, h3⟩ :=
    conversions_succeed_ideal w h bpp img hw hh hw2 hh2 hbpp himg
  refine ⟨?_, ?_, h3⟩
  · rw [convert_rgb_to_yuv420p_u32, u32_model_agrees hlt]
    exact h1
  · rw [convert_rgb_to_yuv420sp_nv12_u32, u32_model_agrees hlt]
    exact h2

/-- Witness for the amended C10 on the 2×2 all-black image with
`bytes_per_pixel = 3`. -/
theorem conversions_succeed_in_bounds_witness :
    (convert_rgb_to_yuv420p_u32 (List.replicate 12 0) 2 2 3).isSome = true ∧
    (convert_rgb_to_yuv420sp_nv12_u32 (List.replicate 12 0) 2 2 3).isSome = true ∧
    2 * 2 + (2 * 2 / 4 - 1) + ceilHalf (2 * 2 / 4) < 2 * 2 * 3 / 2 :=
  conversions_succeed_in_bounds 2 2 3 (List.replicate 12 0)
    ⟨1, rfl⟩ ⟨1, rfl⟩ (by decide) (by decide) (by decide) (by decide)
    (by norm_num)
